import Mathlib

/-!
Verification of the rate-limiting and async-logging core of the
ai-governance-mvp backend (`src/backend/rate_limit.py` and
`src/backend/async_logger.py`), as a shallow embedding in Lean 4.

Modelling conventions:
* Python ints are `Int` (arbitrary precision, as in Python).
* The in-memory bucket dict `_rate_limit_state` is an association list
  `List (String × Int × Int)` mapping key to `(count, window_start)`.
* The Redis value for a key is `none` (absent) or a stored string, which is
  either the legacy count-only format or the `count:reset_at` pair; we model
  the parsed form with `RedisVal`.
* Fallible / stateful code is explicit state passing; each operation returns
  its result together with the new state.
-/

/-- `get_rate_limit_key` from rate_limit.py: `f"rl:{api_key_id}"`. -/
def get_rate_limit_key (api_key_id : String) : String :=
  "rl:" ++ api_key_id

/-- Result record of `allow_request`: the `allowed` flag with the `info` dict
fields `remaining` and `reset_at` (the `backend` tag is determined by which
model function produced it). -/
structure AllowInfo where
  allowed : Bool
  remaining : Int
  reset_at : Int
deriving DecidableEq, Repr

/-- The in-memory bucket store `_rate_limit_state : Dict[str, Tuple[int, int]]`,
mapping rate-limit key to `(count, window_start)`. -/
abbrev RLState := List (String × Int × Int)

/-- Dict read: `_rate_limit_state[key]` / `key in _rate_limit_state`. -/
def lookupBucket : RLState → String → Option (Int × Int)
  | [], _ => none
  | (k, v) :: rest, key => if k = key then some v else lookupBucket rest key

/-- Dict write: `_rate_limit_state[key] = v`. -/
def setBucket : RLState → String → Int × Int → RLState
  | [], key, v => [(key, v)]
  | (k, w) :: rest, key, v =>
    if k = key then (key, v) :: rest else (k, w) :: setBucket rest key v

/-- The in-memory fallback path of `allow_request` (rate_limit.py lines
163–198), with the store and the clock passed explicitly.  Returns the
`(allowed, info)` pair together with the updated store. -/
def allow_request (state : RLState) (api_key_id : String)
    (limit window now : Int) : AllowInfo × RLState :=
  let key := get_rate_limit_key api_key_id
  match lookupBucket state key with
  | none =>
    (⟨true, limit - 1, now + window⟩, setBucket state key (1, now))
  | some (count, window_start) =>
    if now - window_start ≥ window then
      (⟨true, limit - 1, now + window⟩, setBucket state key (1, now))
    else if count < limit then
      (⟨true, limit - (count + 1), window_start + window⟩,
        setBucket state key (count + 1, window_start))
    else
      (⟨false, 0, window_start + window⟩, state)

/-- Parsed form of the string Redis stores under a rate-limit key: the legacy
count-only format, or the `count:reset_at` format. -/
inductive RedisVal where
  | legacy (count : Int)
  | pair (count reset_at : Int)
deriving DecidableEq, Repr

/-- The Lua script `RATE_LIMIT_LUA` (rate_limit.py lines 38–78), acting on the
value stored at the key.  Returns `{remaining, reset_at}` and the new stored
value.  The first-request and window-reset branches store the plain string
`'1'`, i.e. the legacy format. -/
def rateLimitLua (cur : Option RedisVal) (limit window now : Int) :
    (Int × Int) × Option RedisVal :=
  match cur with
  | none => ((limit - 1, now + window), some (.legacy 1))
  | some v =>
    let count := match v with | .legacy c => c | .pair c _ => c
    let reset_at := match v with | .legacy _ => now + window | .pair _ r => r
    if now ≥ reset_at then
      ((limit - 1, now + window), some (.legacy 1))
    else if count < limit then
      ((limit - (count + 1), reset_at), some (.pair (count + 1) reset_at))
    else
      ((0, reset_at), cur)

/-- The Redis branch of `allow_request` (rate_limit.py lines 139–159): runs the
Lua script and post-processes its `[remaining, reset_at]` reply.  The source
computes `allowed = remaining >= 0` and reports `remaining = max(0, remaining)`. -/
def redis_allow_request (cur : Option RedisVal) (limit window now : Int) :
    AllowInfo × Option RedisVal :=
  let r := rateLimitLua cur limit window now
  (⟨decide (r.1.1 ≥ 0), max 0 r.1.1, r.1.2⟩, r.2)

/-- A sequence of `allow_request` calls against the memory backend with a fixed
limit and window: each call is `(api_key_id, now)`. -/
def runAllow (limit window : Int) (state : RLState) :
    List (String × Int) → RLState
  | [] => state
  | c :: rest => runAllow limit window (allow_request state c.1 limit window c.2).2 rest

/-- The sequence of `allowed` results of such a call sequence. -/
def runAllowResults (limit window : Int) (state : RLState) :
    List (String × Int) → List Bool
  | [] => []
  | c :: rest =>
    let r := allow_request state c.1 limit window c.2
    r.1.allowed :: runAllowResults limit window r.2 rest

/-- Iterated `redis_allow_request` at a single key, returning the `allowed`
results of the calls, each call given by its `now`. -/
def runRedisResults (limit window : Int) (cur : Option RedisVal) :
    List Int → List Bool
  | [] => []
  | n :: rest =>
    let r := redis_allow_request cur limit window n
    r.1.allowed :: runRedisResults limit window r.2 rest

/-- The bucket-count invariant of the memory store: every stored bucket has
`count ≤ limit`. -/
def CountLe (limit : Int) (s : RLState) : Prop :=
  ∀ k c w, lookupBucket s k = some (c, w) → c ≤ limit

/-! ## Async logger (`src/backend/async_logger.py`) -/

/-- Configured queue bound `QUEUE_SIZE = 1000` (async_logger.py line 27). -/
def QUEUE_SIZE : Nat := 1000

/-- Configured batch bound `BATCH_SIZE = 50` (async_logger.py line 28). -/
def BATCH_SIZE : Nat := 50

/-- `LogEntry` from async_logger.py: one audit record.  The `meta` dict is a
string-keyed map of scalar values, modelled as an association list; timestamps
are integers. -/
structure LogEntry where
  id : String
  customer_id : String
  api_key_id : String
  model : String
  operation : String
  meta : List (String × String)
  risk_score : Int
  allowed : Bool
  reason : String
  created_at : Int
deriving DecidableEq, Repr

/-- The global `_log_queue`: `none` models `_log_queue is None` (before
`init_logger`, or after `shutdown_logger` has reset it); `some xs` models an
initialized `asyncio.Queue` currently holding `xs` in FIFO order. -/
abbrev LogQueue := Option (List LogEntry)

/-- `queue_log` (async_logger.py lines 111–154) against a queue of capacity
`maxsize`: returns `False` when the logger is uninitialized, `True` after a
successful `put_nowait`, and `False` when `put_nowait` raises `QueueFull`.
`asyncio.Queue` is full when `maxsize > 0` and the size has reached `maxsize`
(a `maxsize` of 0 means unbounded). -/
def queue_log (q : LogQueue) (maxsize : Nat) (e : LogEntry) :
    Bool × LogQueue :=
  match q with
  | none => (false, none)
  | some xs =>
    if maxsize = 0 ∨ xs.length < maxsize then (true, some (xs ++ [e]))
    else (false, some xs)

/-- A sequence of `queue_log` calls, returning the list of boolean results and
the final queue. -/
def queue_log_run (q : LogQueue) (maxsize : Nat) :
    List LogEntry → List Bool × LogQueue
  | [] => ([], q)
  | e :: rest =>
    let r := queue_log q maxsize e
    let r2 := queue_log_run r.2 maxsize rest
    (r.1 :: r2.1, r2.2)

/-- Combined state of an initialized logging pipeline: the queue contents, the
worker's in-progress `batch` local, the log of `_batch_write` calls made so far
(each call's argument list paired with whether its DB commit succeeded), and
whether the worker loop has exited. -/
structure WState where
  queue : List LogEntry
  batch : List LogEntry
  writes : List (List LogEntry × Bool)
  terminated : Bool
deriving DecidableEq, Repr

/-- The initial state right after `init_logger`: empty queue, empty batch, no
writes, worker running. -/
def winit : WState := ⟨[], [], [], false⟩

/-- Events of the logging pipeline.  `enq e` is a successful `queue_log` by a
producer; `deq ok` is one iteration of `_worker_loop` in which
`_log_queue.get()` returns an item (`ok` is the DB outcome of the
`_batch_write` this iteration performs, if any); `timeout ok` is an iteration
hitting `asyncio.TimeoutError`; `cancel` is the worker receiving
`asyncio.CancelledError` and breaking out of its loop. -/
inductive WEvent where
  | enq (e : LogEntry)
  | deq (ok : Bool)
  | timeout (ok : Bool)
  | cancel
deriving DecidableEq, Repr

/-- Whether an event is a producer enqueue. -/
def isEnq : WEvent → Bool
  | .enq _ => true
  | _ => false

/-- One step of the pipeline (async_logger.py lines 156–201 for the worker
events).  On `deq`, the dequeued entry is appended to the batch and the batch
is flushed iff it has reached `BATCH_SIZE`.  On `timeout`, a non-empty batch is
flushed.  `_batch_write` (lines 203–235) catches every exception, so the
worker's continuation does not depend on `ok`; the call is recorded either way.
On `cancel` the worker breaks, abandoning its in-progress batch without
writing it. -/
def workerStep (s : WState) : WEvent → WState
  | .enq e => { s with queue := s.queue ++ [e] }
  | .deq ok =>
    if s.terminated then s
    else
      match s.queue with
      | [] => s
      | e :: rest =>
        if BATCH_SIZE ≤ (s.batch ++ [e]).length then
          { s with queue := rest, batch := [], writes := s.writes ++ [(s.batch ++ [e], ok)] }
        else
          { s with queue := rest, batch := s.batch ++ [e] }
  | .timeout ok =>
    if s.terminated then s
    else if s.batch = [] then s
    else { s with batch := [], writes := s.writes ++ [(s.batch, ok)] }
  | .cancel => { s with batch := [], terminated := true }

/-- Run a sequence of pipeline events. -/
def runWorker (s : WState) : List WEvent → WState
  | [] => s
  | ev :: rest => runWorker (workerStep s ev) rest

/-- `shutdown_logger` (async_logger.py lines 76–108) on an initialized
pipeline: drain the queue into `remaining` with `get_nowait`, make one
`_batch_write(remaining)` call if it is non-empty (`ok` is its DB outcome),
then cancel the worker task — which discards the worker's in-progress batch —
and release the queue. -/
def shutdown_logger (s : WState) (ok : Bool) : WState :=
  let s1 :=
    if s.queue = [] then s
    else { s with queue := [], writes := s.writes ++ [(s.queue, ok)] }
  { s1 with batch := [], terminated := true }

/-- All log entries currently owned by the pipeline state (queued or in the
worker's batch). -/
def stateEntries (s : WState) : List LogEntry := s.queue ++ s.batch

/-- A fixed concrete log entry, used to instantiate the theorems below. -/
def e0 : LogEntry :=
  ⟨"id-0", "cust-0", "key-0", "model-0", "check", [], 0, true, "ok", 0⟩

/-- The worker-loop invariant: the in-progress batch is strictly below
`BATCH_SIZE`, and every `_batch_write` call so far got a non-empty batch of at
most `BATCH_SIZE` entries. -/
def WInv (s : WState) : Prop :=
  s.batch.length < BATCH_SIZE ∧
  ∀ p ∈ s.writes, p.1 ≠ [] ∧ p.1.length ≤ BATCH_SIZE

/-! ## Theorems -/

/-- Reading back the key just written: dict-update then dict-read at the same
key yields the written value. -/
theorem lookup_setBucket (s : RLState) (k : String) (v : Int × Int) :
    lookupBucket (setBucket s k v) k = some v := by
  induction s with
  | nil => simp [setBucket, lookupBucket]
  | cons hd tl ih =>
    obtain ⟨k1, v1⟩ := hd
    by_cases h : k1 = k
    · simp [setBucket, h, lookupBucket]
    · simp [setBucket, h, lookupBucket, ih]

/-- Dict-update leaves every other key's entry unchanged. -/
theorem lookup_setBucket_ne (s : RLState) (k k1 : String) (v : Int × Int)
    (h : k1 ≠ k) : lookupBucket (setBucket s k v) k1 = lookupBucket s k1 := by
  have h2 : k ≠ k1 := Ne.symm h
  induction s with
  | nil => simp [setBucket, lookupBucket, h2]
  | cons hd tl ih =>
    obtain ⟨k2, v2⟩ := hd
    by_cases h3 : k2 = k
    · subst h3
      simp [setBucket, lookupBucket, h2]
    · simp [setBucket, h3, lookupBucket, ih]

/-- C1: for limit L = 2 and strictly sequential same-key requests inside one
fresh window, the memory backend admits exactly 2 and denies the 3rd, but the
Redis path admits the 3rd as well — `allowed = remaining >= 0` is true even on
the Lua script's rate-limited reply `{0, reset_at}`, so the Redis backend never
denies. -/
theorem redis_backend_never_denies :
    runAllowResults 2 60 [] [("k", 0), ("k", 0), ("k", 0)] = [true, true, false] ∧
    runRedisResults 2 60 none [0, 0, 0] = [true, true, true] := by decide

/-- C2: a caller with the empty identity key is admitted, not denied: the
memory backend creates the bucket "rl:" for it and allows the request, and the
Redis path allows it too.  No fail-closed check exists in `allow_request`. -/
theorem empty_key_admitted :
    (allow_request [] "" 100 60 0).1.allowed = true ∧
    (redis_allow_request none 100 60 0).1.allowed = true := by decide

/-- C3: an entry that was successfully enqueued and then dequeued by the worker
into its in-progress batch (size 1 < BATCH_SIZE, so not yet flushed) is lost by
shutdown: `shutdown_logger` drains only the queue, which is already empty, and
then cancels the worker, discarding its batch — the entry appears in no
`_batch_write` call even though every write succeeds. -/
theorem shutdown_drops_inflight_batch :
    (runWorker winit [WEvent.enq e0, WEvent.deq true]).batch = [e0] ∧
    (runWorker winit [WEvent.enq e0, WEvent.deq true]).writes = [] ∧
    (shutdown_logger (runWorker winit [WEvent.enq e0, WEvent.deq true]) true).writes
      = [] := by decide

/-- C9: whenever the memory backend denies a request, the bucket store is
returned entirely unchanged. -/
theorem deny_leaves_state_unchanged (s : RLState) (kid : String)
    (limit window now : Int)
    (h : (allow_request s kid limit window now).1.allowed = false) :
    (allow_request s kid limit window now).2 = s := by
  simp only [allow_request] at h ⊢
  cases hb : lookupBucket s (get_rate_limit_key kid) with
  | none => simp [hb] at h
  | some cw =>
    obtain ⟨count, ws⟩ := cw
    simp only [hb] at h ⊢
    split_ifs at h ⊢ <;> simp_all

/-- Witness for C9: a concrete denied request (bucket at its limit inside the
window) leaves the concrete store unchanged. -/
theorem deny_leaves_state_unchanged_witness :
    (allow_request [("rl:a", (1, 0))] "a" 1 60 0).1.allowed = false ∧
    (allow_request [("rl:a", (1, 0))] "a" 1 60 0).2 = [("rl:a", (1, 0))] :=
  ⟨by decide, deny_leaves_state_unchanged [("rl:a", (1, 0))] "a" 1 60 0 (by decide)⟩

/-- C10: calling `queue_log` while the logger is not initialized (before
`init_logger`, or after `shutdown_logger` has reset `_log_queue` to `None`)
returns `False` and leaves the queue state unchanged (still `none`); no
exception escapes to the caller. -/
theorem queue_log_uninitialized (maxsize : Nat) (e : LogEntry) :
    queue_log none maxsize e = (false, none) := rfl

/-- On a bounded queue (capacity `cap > 0`) currently holding `xs`, a run of
`queue_log` calls that overshoots the capacity by one accepts entries exactly
until the queue is full and rejects the last one. -/
theorem queue_log_run_fills (cap : Nat) (es : List LogEntry) :
    ∀ xs : List LogEntry, 0 < cap → xs.length ≤ cap →
    xs.length + es.length = cap + 1 →
    (queue_log_run (some xs) cap es).1 =
      List.replicate (cap - xs.length) true ++ [false] := by
  induction es with
  | nil =>
    intro xs hcap hle hsum
    simp at hsum
    omega
  | cons e rest ih =>
    intro xs hcap hle hsum
    simp only [List.length_cons] at hsum
    by_cases hx : xs.length < cap
    · have hcond : cap = 0 ∨ xs.length < cap := Or.inr hx
      simp only [queue_log_run, queue_log, if_pos hcond]
      have h2 := ih (xs ++ [e]) hcap (by simp; omega) (by simp; omega)
      simp only [h2, List.length_append, List.length_cons, List.length_nil]
      rw [show cap - xs.length = (cap - (xs.length + 1)) + 1 by omega,
        List.replicate_succ]
      simp
    · have hx2 : xs.length = cap := by omega
      have hrest : rest = [] := by
        have : rest.length = 0 := by omega
        exact List.length_eq_zero.mp this
      subst hrest
      have hc0 : ¬ cap = 0 := by omega
      simp [queue_log_run, queue_log, hc0, hx, hx2]

/-- C4: on an initialized queue of capacity `cap ≥ 1`, `cap + 1` enqueue calls
return `True` exactly `cap` times and then `False`; `queue_log` is a total
function here, so no call blocks or raises. -/
theorem enqueue_fills_then_rejects (cap : Nat) (es : List LogEntry)
    (hcap : 0 < cap) (hlen : es.length = cap + 1) :
    (queue_log_run (some []) cap es).1 = List.replicate cap true ++ [false] := by
  have h := queue_log_run_fills cap es [] hcap (by simp) (by simp [hlen])
  simpa using h

/-- Witness for C4: capacity 2, three enqueues, results true, true, false. -/
theorem enqueue_fills_then_rejects_witness :
    (queue_log_run (some []) 2 [e0, e0, e0]).1 =
      List.replicate 2 true ++ [false] :=
  enqueue_fills_then_rejects 2 [e0, e0, e0] (by decide) (by decide)

/-- C7: a bucket exhausted at `count = limit` is reset by the first request at
or after its reset instant `windowStart + window`: the request is admitted with
`remaining = limit - 1` and the bucket becomes `(1, now)`.  The same holds on
the Lua path for a stored `count:reset_at` pair whose `reset_at` has passed:
the reply is allowed with `remaining = limit - 1` and the stored value becomes
the plain count `1`. -/
theorem exhausted_bucket_resets (s : RLState) (kid : String)
    (limit window now ws ra : Int)
    (hbucket : lookupBucket s (get_rate_limit_key kid) = some (limit, ws))
    (hnow : now ≥ ws + window) (hlim : 1 ≤ limit) (hra : now ≥ ra) :
    ((allow_request s kid limit window now).1.allowed = true ∧
     (allow_request s kid limit window now).1.remaining = limit - 1 ∧
     lookupBucket (allow_request s kid limit window now).2
       (get_rate_limit_key kid) = some (1, now)) ∧
    ((redis_allow_request (some (RedisVal.pair limit ra)) limit window now).1.allowed
        = true ∧
     (redis_allow_request (some (RedisVal.pair limit ra)) limit window now).1.remaining
        = limit - 1 ∧
     (redis_allow_request (some (RedisVal.pair limit ra)) limit window now).2
        = some (RedisVal.legacy 1)) := by
  have hw : now - ws ≥ window := by omega
  constructor
  · refine ⟨?_, ?_, ?_⟩
    · simp [allow_request, hbucket, hw]
    · simp [allow_request, hbucket, hw]
    · simp only [allow_request, hbucket, if_pos hw]
      exact lookup_setBucket s (get_rate_limit_key kid) (1, now)
  · refine ⟨?_, ?_, ?_⟩
    · simp [redis_allow_request, rateLimitLua, hra]
      omega
    · simp [redis_allow_request, rateLimitLua, hra]
      omega
    · simp [redis_allow_request, rateLimitLua, hra]

/-- Witness for C7: key "a" exhausted at limit 5 with window start 0 and window
60; the request at time 60 is admitted with remaining 4 and resets the bucket,
and likewise on the Lua path. -/
theorem exhausted_bucket_resets_witness :
    ((allow_request [("rl:a", (5, 0))] "a" 5 60 60).1.allowed = true ∧
     (allow_request [("rl:a", (5, 0))] "a" 5 60 60).1.remaining = 4 ∧
     lookupBucket (allow_request [("rl:a", (5, 0))] "a" 5 60 60).2
       (get_rate_limit_key "a") = some (1, 60)) ∧
    ((redis_allow_request (some (RedisVal.pair 5 60)) 5 60 60).1.allowed = true ∧
     (redis_allow_request (some (RedisVal.pair 5 60)) 5 60 60).1.remaining = 4 ∧
     (redis_allow_request (some (RedisVal.pair 5 60)) 5 60 60).2
        = some (RedisVal.legacy 1)) :=
  exhausted_bucket_resets [("rl:a", (5, 0))] "a" 5 60 60 0 60
    (by decide) (by decide) (by decide) (by decide)

/-- C8 counterexample: with limit 0, the very first request is admitted
(`allow_request` creates every missing bucket with `count = 1` before checking
the limit), leaving a bucket whose count 1 exceeds the limit 0 — so the
invariant as claimed fails for that admitted request. -/
theorem count_le_limit_fails_at_limit_zero :
    (allow_request [] "a" 0 60 0).1.allowed = true ∧
    lookupBucket (allow_request [] "a" 0 60 0).2 (get_rate_limit_key "a")
      = some (1, 0) ∧
    ¬ ((1 : Int) ≤ 0) := by decide

/-- One `allow_request` call preserves the count-below-limit invariant of the
memory store whenever the limit is at least 1. -/
theorem countLe_step (limit window : Int) (hlim : 1 ≤ limit) (s : RLState)
    (h : CountLe limit s) (kid : String) (now : Int) :
    CountLe limit (allow_request s kid limit window now).2 := by
  intro k c w hl
  by_cases hk : k = get_rate_limit_key kid
  · subst hk
    cases hb : lookupBucket s (get_rate_limit_key kid) with
    | none =>
      simp only [allow_request, hb, lookup_setBucket] at hl
      injection hl with hl1
      injection hl1 with hc hw
      omega
    | some cw =>
      obtain ⟨count, ws⟩ := cw
      have hcount := h (get_rate_limit_key kid) count ws hb
      simp only [allow_request, hb] at hl
      split_ifs at hl with h1 h2
      · simp only [lookup_setBucket] at hl
        injection hl with hl1
        injection hl1 with hc hw
        omega
      · simp only [lookup_setBucket] at hl
        injection hl with hl1
        injection hl1 with hc hw
        omega
      · exact h _ _ _ hl
  · cases hb : lookupBucket s (get_rate_limit_key kid) with
    | none =>
      simp only [allow_request, hb, lookup_setBucket_ne s _ _ _ hk] at hl
      exact h _ _ _ hl
    | some cw =>
      obtain ⟨count, ws⟩ := cw
      simp only [allow_request, hb] at hl
      split_ifs at hl <;>
        first
        | (rw [lookup_setBucket_ne s _ _ _ hk] at hl; exact h _ _ _ hl)
        | exact h _ _ _ hl

/-- C8 (amended: limit at least 1): every store reachable from the empty
`_rate_limit_state` by any sequence of `allow_request` calls with a fixed
limit `L ≥ 1` keeps every bucket count at most `L`; since this holds for every
call sequence, it holds in particular after every admitted request. -/
theorem count_le_limit_invariant (limit window : Int) (hlim : 1 ≤ limit)
    (calls : List (String × Int)) :
    CountLe limit (runAllow limit window [] calls) := by
  have main : ∀ (cs : List (String × Int)) (s : RLState), CountLe limit s →
      CountLe limit (runAllow limit window s cs) := by
    intro cs
    induction cs with
    | nil => intro s h; exact h
    | cons c rest ih =>
      intro s h
      exact ih _ (countLe_step limit window hlim s h c.1 c.2)
  refine main calls [] ?_
  intro k c w hl
  simp [lookupBucket] at hl

/-- Witness for C8: limit 2, three same-key requests at time 0 starting from
the empty store; the resulting bucket holds count 2 ≤ 2. -/
theorem count_le_limit_invariant_witness : (2 : Int) ≤ 2 :=
  count_le_limit_invariant 2 60 (by decide) [("a", 0), ("a", 0), ("a", 0)]
    "rl:a" 2 0 (by decide)

/-- One pipeline event preserves the worker-loop batch invariant. -/
theorem winv_step (s : WState) (ev : WEvent) (h : WInv s) :
    WInv (workerStep s ev) := by
  obtain ⟨hb, hw⟩ := h
  cases ev with
  | enq e => exact ⟨hb, hw⟩
  | cancel => exact ⟨by simpa [workerStep, BATCH_SIZE] using Nat.succ_pos 49, hw⟩
  | deq ok =>
    simp only [workerStep]
    split
    · exact ⟨hb, hw⟩
    · cases hq : s.queue with
      | nil => exact ⟨hb, hw⟩
      | cons e rest =>
        simp only []
        split
        · next hlen =>
          refine ⟨by simpa [BATCH_SIZE] using Nat.succ_pos 49, ?_⟩
          intro p hp
          rcases List.mem_append.mp hp with h1 | h2
          · exact hw p h1
          · have hpe : p = (s.batch ++ [e], ok) := by simpa using h2
            subst hpe
            refine ⟨by simp, ?_⟩
            simp only [List.length_append, List.length_cons, List.length_nil]
            omega
        · next hlen =>
          refine ⟨?_, hw⟩
          simp only [List.length_append, List.length_cons, List.length_nil] at hlen ⊢
          omega
  | timeout ok =>
    simp only [workerStep]
    split
    · exact ⟨hb, hw⟩
    · split
      · exact ⟨hb, hw⟩
      · next hne =>
        refine ⟨by simpa [BATCH_SIZE] using Nat.succ_pos 49, ?_⟩
        intro p hp
        rcases List.mem_append.mp hp with h1 | h2
        · exact hw p h1
        · have hpe : p = (s.batch, ok) := by simpa using h2
          subst hpe
          exact ⟨hne, Nat.le_of_lt hb⟩

/-- The batch invariant holds along every event sequence. -/
theorem winv_run (evs : List WEvent) : ∀ s : WState, WInv s →
    WInv (runWorker s evs) := by
  induction evs with
  | nil => intro s h; exact h
  | cons ev rest ih => intro s h; exact ih _ (winv_step s ev h)

/-- With nothing enqueued and both queue and batch empty, the pipeline makes no
`_batch_write` call and queue and batch stay empty. -/
theorem quiet_run (evs : List WEvent) : ∀ s : WState,
    (∀ ev ∈ evs, isEnq ev = false) → s.queue = [] → s.batch = [] →
    (runWorker s evs).writes = s.writes ∧
    (runWorker s evs).queue = [] ∧ (runWorker s evs).batch = [] := by
  induction evs with
  | nil => intro s _ hq hb; exact ⟨rfl, hq, hb⟩
  | cons ev rest ih =>
    intro s hne hq hb
    have hrest : ∀ x ∈ rest, isEnq x = false :=
      fun x hx => hne x (List.mem_cons_of_mem _ hx)
    cases ev with
    | enq e => simpa [isEnq] using hne (WEvent.enq e) (List.mem_cons_self _ _)
    | deq ok =>
      have hstep : workerStep s (WEvent.deq ok) = s := by
        simp only [workerStep, hq]
        split <;> rfl
      rw [runWorker, hstep]
      exact ih s hrest hq hb
    | timeout ok =>
      have hstep : workerStep s (WEvent.timeout ok) = s := by
        simp only [workerStep, hb]
        split
        · rfl
        · simp
      rw [runWorker, hstep]
      exact ih s hrest hq hb
    | cancel =>
      rw [runWorker]
      have h2 := ih { s with batch := [], terminated := true } hrest hq rfl
      simpa [workerStep] using h2

/-- C6: along every event sequence from the initial pipeline state, every batch
the worker passes to `_batch_write` is non-empty and holds at most
`BATCH_SIZE` entries; and a sequence with no enqueue at all (zero traffic)
produces no `_batch_write` call whatsoever. -/
theorem worker_batches_bounded (evs : List WEvent) :
    (∀ p ∈ (runWorker winit evs).writes, p.1 ≠ [] ∧ p.1.length ≤ BATCH_SIZE) ∧
    ((∀ ev ∈ evs, isEnq ev = false) → (runWorker winit evs).writes = []) := by
  constructor
  · exact (winv_run evs winit ⟨by decide, by simp [winit]⟩).2
  · intro h
    exact (quiet_run evs winit h rfl rfl).1

/-- Witness for C6: a one-entry trace flushes the non-empty singleton batch
(within bounds), and an enqueue-free trace with timer expiries and a pending
`get` writes nothing. -/
theorem worker_batches_bounded_witness :
    (([e0] ≠ []) ∧ [e0].length ≤ BATCH_SIZE) ∧
    (runWorker winit [WEvent.deq true, WEvent.timeout true]).writes = [] := by
  constructor
  · exact (worker_batches_bounded [WEvent.enq e0, WEvent.deq true,
      WEvent.timeout true]).1 ([e0], true) (by decide)
  · exact (worker_batches_bounded [WEvent.deq true, WEvent.timeout true]).2
      (by decide)

/-- Every entry owned by the pipeline after one event was already owned before
it, unless that very event enqueued it. -/
theorem step_entries (s : WState) (ev : WEvent) (x : LogEntry)
    (hx : x ∈ stateEntries (workerStep s ev)) :
    x ∈ stateEntries s ∨ ev = WEvent.enq x := by
  cases ev with
  | enq e =>
    simp only [workerStep, stateEntries, List.append_assoc, List.mem_append,
      List.mem_singleton, WEvent.enq.injEq] at hx ⊢
    rcases hx with h | h | h
    · exact Or.inl (Or.inl h)
    · exact Or.inr h.symm
    · exact Or.inl (Or.inr h)
  | cancel =>
    left
    simp only [workerStep, stateEntries, List.append_nil] at hx
    simp [stateEntries, List.mem_append, hx]
  | deq ok =>
    left
    simp only [workerStep] at hx
    split at hx
    · exact hx
    · split at hx
      · exact hx
      · next e rest heq =>
        split at hx
        · simp only [stateEntries, List.append_nil] at hx
          simp only [stateEntries, heq, List.mem_append, List.mem_cons]
          exact Or.inl (Or.inr hx)
        · simp only [stateEntries, List.mem_append, List.mem_singleton] at hx
          simp only [stateEntries, heq, List.mem_append, List.mem_cons]
          tauto
  | timeout ok =>
    left
    simp only [workerStep] at hx
    split at hx
    · exact hx
    · split at hx
      · exact hx
      · simp only [stateEntries, List.append_nil] at hx
        simp [stateEntries, List.mem_append, hx]

/-- Every `_batch_write` call present after one event either was already
recorded, or its whole batch was drawn from entries the pipeline owned before
the event. -/
theorem step_writes (s : WState) (ev : WEvent) (p : List LogEntry × Bool)
    (hp : p ∈ (workerStep s ev).writes) :
    p ∈ s.writes ∨ ∀ x ∈ p.1, x ∈ stateEntries s := by
  cases ev with
  | enq e => exact Or.inl hp
  | cancel => exact Or.inl hp
  | deq ok =>
    simp only [workerStep] at hp
    split at hp
    · exact Or.inl hp
    · split at hp
      · exact Or.inl hp
      · next e rest heq =>
        split at hp
        · rcases List.mem_append.mp hp with h1 | h2
          · exact Or.inl h1
          · right
            have hpe : p = (s.batch ++ [e], ok) := by simpa using h2
            subst hpe
            intro x hxmem
            simp only [List.mem_append, List.mem_singleton] at hxmem
            simp only [stateEntries, heq, List.mem_append, List.mem_cons]
            tauto
        · exact Or.inl hp
  | timeout ok =>
    simp only [workerStep] at hp
    split at hp
    · exact Or.inl hp
    · split at hp
      · exact Or.inl hp
      · rcases List.mem_append.mp hp with h1 | h2
        · exact Or.inl h1
        · right
          have hpe : p = (s.batch, ok) := by simpa using h2
          subst hpe
          intro x hxmem
          simp [stateEntries, List.mem_append, hxmem]

/-- Provenance of `_batch_write` calls along a run: every call either predates
the run, or every entry of its batch was owned by the starting state or was
enqueued by some event of the run. -/
theorem run_writes_prov (evs : List WEvent) : ∀ (s : WState)
    (p : List LogEntry × Bool), p ∈ (runWorker s evs).writes →
    p ∈ s.writes ∨ ∀ x ∈ p.1, x ∈ stateEntries s ∨ WEvent.enq x ∈ evs := by
  induction evs with
  | nil => intro s p hp; exact Or.inl hp
  | cons ev rest ih =>
    intro s p hp
    rw [runWorker] at hp
    rcases ih (workerStep s ev) p hp with h1 | h2
    · rcases step_writes s ev p h1 with h3 | h4
      · exact Or.inl h3
      · exact Or.inr fun x hx => Or.inl (h4 x hx)
    · right
      intro x hx
      rcases h2 x hx with h3 | h4
      · rcases step_entries s ev x h3 with h5 | h6
        · exact Or.inl h5
        · exact Or.inr (by rw [h6]; exact List.mem_cons_self _ _)
      · exact Or.inr (List.mem_cons_of_mem _ h4)

/-- Replace the `_batch_write` outcome carried by a worker event, leaving the
event otherwise unchanged. -/
def setOk : WEvent → Bool → WEvent
  | .deq _, ok => .deq ok
  | .timeout _, ok => .timeout ok
  | ev, _ => ev

/-- C5: when a running worker records a failed `_batch_write` of batch `b`, the
batch is discarded: the in-progress batch becomes empty, the worker does not
terminate, nothing is put back on the queue (the new queue is a suffix of the
old one), the continuation state is the same as if the write had succeeded,
and every later `_batch_write` call is either one already recorded or draws its
entries only from the post-failure queue and later enqueues — never from `b`
again (no retry). -/
theorem failed_write_batch_discarded (s : WState) (ev : WEvent)
    (b : List LogEntry) (hterm : s.terminated = false)
    (hw : (workerStep s ev).writes = s.writes ++ [(b, false)]) :
    (workerStep s ev).batch = [] ∧
    (workerStep s ev).terminated = false ∧
    (workerStep s ev).queue.IsSuffix s.queue ∧
    (∀ ok2, (workerStep s (setOk ev ok2)).queue = (workerStep s ev).queue ∧
      (workerStep s (setOk ev ok2)).batch = [] ∧
      (workerStep s (setOk ev ok2)).terminated = false) ∧
    (∀ (evs : List WEvent) (p : List LogEntry × Bool),
      p ∈ (runWorker (workerStep s ev) evs).writes →
      p ∈ s.writes ++ [(b, false)] ∨
      ∀ x ∈ p.1, x ∈ (workerStep s ev).queue ∨ WEvent.enq x ∈ evs) := by
  have hmain : (workerStep s ev).batch = [] ∧
      (workerStep s ev).terminated = false ∧
      (workerStep s ev).queue.IsSuffix s.queue ∧
      (∀ ok2, (workerStep s (setOk ev ok2)).queue = (workerStep s ev).queue ∧
        (workerStep s (setOk ev ok2)).batch = [] ∧
        (workerStep s (setOk ev ok2)).terminated = false) := by
    cases ev with
    | enq e =>
      exfalso
      have hlen := congrArg List.length hw
      simp [workerStep] at hlen
    | cancel =>
      exfalso
      have hlen := congrArg List.length hw
      simp [workerStep] at hlen
    | deq ok =>
      cases hq : s.queue with
      | nil =>
        exfalso
        have hs : workerStep s (WEvent.deq ok) = s := by
          simp [workerStep, hterm, hq]
        rw [hs] at hw
        have hlen := congrArg List.length hw
        simp at hlen
      | cons e rest =>
        by_cases hbig : BATCH_SIZE ≤ s.batch.length + 1
        · have hs : workerStep s (WEvent.deq ok) = { s with queue := rest, batch := [], writes := s.writes ++ [(s.batch ++ [e], ok)] } := by
            simp [workerStep, hterm, hq, hbig]
          refine ⟨by rw [hs], by rw [hs]; exact hterm, ?_, ?_⟩
          · rw [hs]
            exact ⟨[e], rfl⟩
          · intro ok2
            have hs2 : workerStep s (setOk (WEvent.deq ok) ok2) = { s with queue := rest, batch := [], writes := s.writes ++ [(s.batch ++ [e], ok2)] } := by
              simp [setOk, workerStep, hterm, hq, hbig]
            rw [hs, hs2]
            exact ⟨rfl, rfl, hterm⟩
        · exfalso
          have hs : workerStep s (WEvent.deq ok) = { s with queue := rest, batch := s.batch ++ [e] } := by
            simp [workerStep, hterm, hq, hbig]
          rw [hs] at hw
          have hlen := congrArg List.length hw
          simp at hlen
    | timeout ok =>
      by_cases hb0 : s.batch = []
      · exfalso
        have hs : workerStep s (WEvent.timeout ok) = s := by
          simp [workerStep, hterm, hb0]
        rw [hs] at hw
        have hlen := congrArg List.length hw
        simp at hlen
      · have hs : workerStep s (WEvent.timeout ok) = { s with batch := [], writes := s.writes ++ [(s.batch, ok)] } := by
          simp [workerStep, hterm, hb0]
        refine ⟨by rw [hs], by rw [hs]; exact hterm, ?_, ?_⟩
        · rw [hs]
        · intro ok2
          have hs2 : workerStep s (setOk (WEvent.timeout ok) ok2) = { s with batch := [], writes := s.writes ++ [(s.batch, ok2)] } := by
            simp [setOk, workerStep, hterm, hb0]
          rw [hs, hs2]
          exact ⟨rfl, rfl, hterm⟩
  refine ⟨hmain.1, hmain.2.1, hmain.2.2.1, hmain.2.2.2, ?_⟩
  intro evs p hp
  rcases run_writes_prov evs (workerStep s ev) p hp with h1 | h2
  · rw [hw] at h1
    exact Or.inl h1
  · right
    intro x hx
    rcases h2 x hx with h3 | h4
    · left
      have hb0 := hmain.1
      simpa [stateEntries, hb0] using h3
    · exact Or.inr h4

/-- Witness for C5: a worker holding the single-entry batch `[e0]` suffers a
failed flush on timeout; the batch is discarded and the worker is still
running. -/
theorem failed_write_batch_discarded_witness :
    (workerStep ⟨[], [e0], [], false⟩ (WEvent.timeout false)).batch = [] ∧
    (workerStep ⟨[], [e0], [], false⟩ (WEvent.timeout false)).terminated
      = false :=
  ⟨(failed_write_batch_discarded ⟨[], [e0], [], false⟩ (WEvent.timeout false)
      [e0] rfl (by decide)).1,
   (failed_write_batch_discarded ⟨[], [e0], [], false⟩ (WEvent.timeout false)
      [e0] rfl (by decide)).2.1⟩
